import Mathlib

/-!
# Verification of the lava checktype/build/report core

Shallow embedding of the decision logic of the `lava` repository:

* `internal/engine/store.go` — the in-memory `reportStore`
  (`UploadCheckData`, `Reports`).
* `internal/checktype/build` (included in the same source extract) —
  `Code.Build`, `Code.isModified`, `InspectImage`, `NewImage`,
  `lastModified`.
* `internal/checktypes/checktypes.go` — `Accepts`, `NewCatalog`.
* `generateChecks` / `generateJobs` — their bodies are not part of the
  source extract (only their tests are); they are modelled from the spec
  where indicated.

Conventions: Go `map[string]V` values are embedded as association lists
with a `setKV` operation that replaces the binding of an existing key;
Go `time.Time` values are embedded as `Nat` seconds; the lossy RFC822
serialization keeps only the minute.
-/

set_option autoImplicit false

namespace Lava

/-! ## Association-list maps (embedding of Go maps) -/

/-- Lookup in a key-value list; first binding wins (lists built with
`setKV` have at most one binding per key). Models Go map indexing. -/
def lookupKV {α : Type} : List (String × α) → String → Option α
  | [], _ => none
  | (k', v) :: rest, k => if k' = k then some v else lookupKV rest k

/-- Models Go map assignment `m[k] = v`: replaces the binding of `k` if
present, otherwise appends it. -/
def setKV {α : Type} : List (String × α) → String → α → List (String × α)
  | [], k, v => [(k, v)]
  | (k', v') :: rest, k, v =>
    if k' = k then (k', v) :: rest else (k', v') :: setKV rest k v

theorem lookupKV_setKV {α : Type} (m : List (String × α)) (k : String) (v : α)
    (k' : String) :
    lookupKV (setKV m k v) k' = if k = k' then some v else lookupKV m k' := by
  induction m with
  | nil => simp [setKV, lookupKV]
  | cons hd tl ih =>
    obtain ⟨k0, v0⟩ := hd
    by_cases h0 : k0 = k
    · subst h0
      by_cases h1 : k0 = k'
      · subst h1; simp [setKV, lookupKV]
      · simp [setKV, lookupKV, h1]
    · by_cases h1 : k0 = k'
      · subst h1
        have : k ≠ k0 := fun h => h0 h.symm
        simp [setKV, lookupKV, h0, this]
      · simp [setKV, lookupKV, h0, h1, ih]

theorem lookupKV_eq_none_of_not_mem {α : Type} (m : List (String × α))
    (k : String) (h : k ∉ m.map Prod.fst) : lookupKV m k = none := by
  induction m with
  | nil => simp [lookupKV]
  | cons hd tl ih =>
    obtain ⟨k0, v0⟩ := hd
    simp only [List.map_cons, List.mem_cons] at h
    push_neg at h
    have hk0 : k0 ≠ k := fun he => h.1 he.symm
    simp [lookupKV, hk0, ih h.2]

/-! ## Report store (`internal/engine/store.go`, `reportStore`) -/

/-- The fields of `report.Report` that the store reads
(`Summary` uses ChecktypeName, Target, StartTime, Status). -/
structure Report where
  checktypeName : String
  target : String
  status : String
  startTime : String
  endTime : String
deriving DecidableEq

/-- The byte content handed to `UploadCheckData`, abstracted by the
outcome of `report.Report.UnmarshalJSONTimeAsString` (the decoder lives
in the external `vulcan-report` module): either it decodes to a report
or it is malformed. -/
inductive Content where
  | decodable (r : Report)
  | invalid
deriving DecidableEq

/-- The two error shapes produced by `UploadCheckData`:
`decode content: ...` and `unknown data kind: ...`. -/
inductive UploadError where
  | decode
  | unknownKind (kind : String)
deriving DecidableEq

/-- The store contents: `reports map[string]report.Report` keyed by
check ID. The lazy `make` on a nil map is invisible here (both embed to
the empty list). -/
abbrev ReportMap := List (String × Report)

/-- Embedding of `reportStore.UploadCheckData` (store.go:28-53).
Returns the `(link, err)` pair together with the updated store
contents. `switch kind`: "reports" decodes and stores; "logs" is
accepted and discarded; anything else is an unknown-kind error. -/
def uploadCheckData (reports : ReportMap) (checkID kind : String)
    (content : Content) : (String × Option UploadError) × ReportMap :=
  if kind = "reports" then
    match content with
    | .decodable r => (("", none), setKV reports checkID r)
    | .invalid => (("", some .decode), reports)
  else if kind = "logs" then
    (("", none), reports)
  else
    (("", some (.unknownKind kind)), reports)

/-! ### Heap model for `Reports` (store.go:69-74)

Go maps are reference values: returning `rs.reports` directly would
alias the internal state, which is why the source returns
`maps.Clone(rs.reports)`. To make aliasing expressible we model a heap
of map cells; the store owns one cell and `Reports` allocates a fresh
cell holding a copy of its contents. -/

/-- A heap of Go map values; a reference is an index into the heap. -/
structure MapHeap where
  cells : List ReportMap
deriving DecidableEq

/-- Dereference a map value. -/
def readCell (h : MapHeap) (r : Nat) : ReportMap := h.cells.getD r []

/-- In-place mutation of the map value behind a reference. -/
def writeCell (h : MapHeap) (r : Nat) (m : ReportMap) : MapHeap :=
  ⟨h.cells.set r m⟩

/-- Embedding of `reportStore.Reports`: `return maps.Clone(rs.reports)`
allocates a fresh map whose contents copy the store's cell, and returns
a reference to the fresh map. -/
def reportsClone (h : MapHeap) (store : Nat) : Nat × MapHeap :=
  (h.cells.length, ⟨h.cells ++ [readCell h store]⟩)

/-- A sequence of arbitrary caller-side mutations applied through a
reference: each step rewrites the referenced map value. -/
def applyMutations (h : MapHeap) (r : Nat)
    (muts : List (ReportMap → ReportMap)) : MapHeap :=
  muts.foldl (fun hh f => writeCell hh r (f (readCell hh r))) h

theorem readCell_writeCell_ne (h : MapHeap) (r s : Nat) (m : ReportMap)
    (hne : s ≠ r) : readCell (writeCell h r m) s = readCell h s := by
  simp only [readCell, writeCell]
  rw [List.getD_eq_getElem?_getD, List.getD_eq_getElem?_getD,
    List.getElem?_set_ne (fun he => hne he.symm)]

theorem readCell_applyMutations_ne (muts : List (ReportMap → ReportMap))
    (h : MapHeap) (r s : Nat) (hne : s ≠ r) :
    readCell (applyMutations h r muts) s = readCell h s := by
  induction muts generalizing h with
  | nil => rfl
  | cons f rest ih =>
    simp only [applyMutations, List.foldl_cons] at *
    rw [ih, readCell_writeCell_ne _ _ _ _ hne]

theorem readCell_append_last (h : MapHeap) (m : ReportMap) :
    readCell ⟨h.cells ++ [m]⟩ h.cells.length = m := by
  simp [readCell, List.getD_eq_getElem?_getD]

theorem readCell_append_lt (h : MapHeap) (m : ReportMap) (s : Nat)
    (hs : s < h.cells.length) :
    readCell ⟨h.cells ++ [m]⟩ s = readCell h s := by
  simp [readCell, List.getD_eq_getElem?_getD, List.getElem?_append_left hs]

/-! ### Claim theorems for the report store -/

/-- C8: `UploadCheckData` with kind "reports" and undecodable content
returns a decode error and leaves the stored report map unchanged; with
kind "logs" it returns no error and stores nothing; with any other kind
it returns an unknown-kind error and stores nothing. -/
theorem uploadCheckData_kinds (rs : ReportMap) (checkID kind : String)
    (content : Content) :
    uploadCheckData rs checkID "reports" Content.invalid
      = (("", some UploadError.decode), rs)
    ∧ uploadCheckData rs checkID "logs" content = (("", none), rs)
    ∧ (kind ≠ "reports" → kind ≠ "logs" →
        uploadCheckData rs checkID kind content
          = (("", some (UploadError.unknownKind kind)), rs)) := by
  refine ⟨rfl, rfl, fun h1 h2 => ?_⟩
  simp [uploadCheckData, h1, h2]

theorem uploadCheckData_kinds_witness :
    ("status" ≠ "reports" ∧ "status" ≠ "logs")
    ∧ uploadCheckData [] "check1" "status" Content.invalid
        = (("", some (UploadError.unknownKind "status")), []) :=
  ⟨⟨by decide, by decide⟩,
    (uploadCheckData_kinds [] "check1" "status" Content.invalid).2.2
      (by decide) (by decide)⟩

/-- C10: `UploadCheckData` returns the empty string as the link on
every path, regardless of kind, content or error. -/
theorem uploadCheckData_link_empty (rs : ReportMap) (checkID kind : String)
    (content : Content) :
    (uploadCheckData rs checkID kind content).1.1 = "" := by
  unfold uploadCheckData
  split
  · cases content <;> rfl
  · split <;> rfl

/-- C9: `Reports` hands out a defensive copy (`maps.Clone`): any
sequence of mutations the caller performs through the returned
reference leaves the store's cell untouched, and a subsequent `Reports`
call still returns the contents from before the mutations. -/
theorem reports_defensive_copy (h : MapHeap) (store : Nat)
    (hs : store < h.cells.length) (muts : List (ReportMap → ReportMap)) :
    readCell (applyMutations (reportsClone h store).2 (reportsClone h store).1 muts)
        store
      = readCell h store
    ∧ readCell
        (reportsClone
          (applyMutations (reportsClone h store).2 (reportsClone h store).1 muts)
          store).2
        (reportsClone
          (applyMutations (reportsClone h store).2 (reportsClone h store).1 muts)
          store).1
      = readCell h store := by
  have hne : store ≠ (reportsClone h store).1 := by
    simp only [reportsClone]
    omega
  have hinner :
      readCell (applyMutations (reportsClone h store).2 (reportsClone h store).1 muts)
          store
        = readCell h store := by
    rw [readCell_applyMutations_ne _ _ _ _ hne]
    exact readCell_append_lt h _ store hs
  refine ⟨hinner, ?_⟩
  conv_lhs => rw [reportsClone]
  rw [readCell_append_last]
  exact hinner

theorem reports_defensive_copy_witness :
    0 < (MapHeap.mk [[("check1", Report.mk "ct1" "t1" "FINISHED" "s" "e")]]).cells.length
    ∧ (readCell
          (applyMutations
            (reportsClone ⟨[[("check1", Report.mk "ct1" "t1" "FINISHED" "s" "e")]]⟩ 0).2
            (reportsClone ⟨[[("check1", Report.mk "ct1" "t1" "FINISHED" "s" "e")]]⟩ 0).1
            [fun _ => []])
          0
        = readCell ⟨[[("check1", Report.mk "ct1" "t1" "FINISHED" "s" "e")]]⟩ 0
      ∧ readCell
          (reportsClone
            (applyMutations
              (reportsClone ⟨[[("check1", Report.mk "ct1" "t1" "FINISHED" "s" "e")]]⟩ 0).2
              (reportsClone ⟨[[("check1", Report.mk "ct1" "t1" "FINISHED" "s" "e")]]⟩ 0).1
              [fun _ => []])
            0).2
          (reportsClone
            (applyMutations
              (reportsClone ⟨[[("check1", Report.mk "ct1" "t1" "FINISHED" "s" "e")]]⟩ 0).2
              (reportsClone ⟨[[("check1", Report.mk "ct1" "t1" "FINISHED" "s" "e")]]⟩ 0).1
              [fun _ => []])
            0).1
        = readCell ⟨[[("check1", Report.mk "ct1" "t1" "FINISHED" "s" "e")]]⟩ 0) :=
  ⟨by decide,
    reports_defensive_copy ⟨[[("check1", Report.mk "ct1" "t1" "FINISHED" "s" "e")]]⟩ 0
      (by decide) [fun _ => []]⟩

/-! ## Checktype build package (`internal/checktype/build`)

Times are `Nat` seconds. `time.RFC822` ("02 Jan 06 15:04 MST") has
minute granularity, so the serialized text of a time is determined by
its minute and parsing the text back yields the time with the
sub-minute part zeroed. -/

/-- Model of `t.Format(time.RFC822)`: the produced text is determined by the
minute of `t`. -/
def formatRFC822 (t : Nat) : Nat := t / 60

/-- Model of `time.Parse(time.RFC822, s)` on well-formed text: yields the time
at that minute with zero seconds. -/
def parseRFC822 (m : Nat) : Nat := m * 60

/-- Option values are opaque to every operation modelled here
(Go `any`). -/
abbrev OptVal := String

/-- An entry of `checkcatalog.Checktype.RequiredVars` (`[]any`): either
a string or a value of some other type. -/
inductive RVar where
  | str (s : String)
  | nonString
deriving DecidableEq

/-- The checktype manifest, abstracted by the outcomes of the
operations the source applies to it: `UnmarshalOptions` and
`AssetTypes.Strings` can fail (`none`); the manifest's own
`RequiredVars` are strings. `ParseManifest` itself lives outside the
source extract, so raw manifest text is represented directly by its
parse outcome (see `ManifestFile` and `LabelVal`). -/
structure Manifest where
  description : String
  timeout : Nat
  options : Option (List (String × OptVal))
  assetTypes : Option (List String)
  requiredVars : List String
deriving DecidableEq

/-- Embedding of `checkcatalog.Checktype`. -/
structure Checktype where
  name : String
  description : String
  image : String
  timeout : Nat
  options : List (String × OptVal)
  requiredVars : List RVar
  assets : List String
deriving DecidableEq

/-- A label value as read back from an image: the key can be absent,
or present with text that fails to parse, or present and parseable. -/
inductive LabelVal (α : Type) where
  | missing
  | malformed
  | parsed (a : α)
deriving DecidableEq

/-- The three labels `InspectImage` reads:
`com.adevinta.vulcan.last_modified_file` (RFC822 text, hence a minute),
`com.adevinta.vulcan.name` (plain string, no parsing), and
`com.adevinta.vulcan.manifest`. -/
structure ImageLabels where
  lastModified : LabelVal Nat
  name : Option String
  manifest : LabelVal Manifest
deriving DecidableEq

/-- Since `dockerutil.ImageLabels` returns an empty label map (not an
error) when no image matches the reference, an absent image reads as
all-missing labels. -/
def absentLabels : ImageLabels := ⟨.missing, none, .missing⟩

/-- Embedding of `build.Image`. `LastModified` is in seconds. -/
structure Image where
  name : String
  checktypeName : String
  manifest : Manifest
  lastModified : Nat
deriving DecidableEq

/-- Every failure path of `InspectImage` wraps `ErrNoChecktypeImage`
(transport failures of the label listing are outside this model). -/
inductive InspectError where
  | noChecktypeImage
deriving DecidableEq

/-- Embedding of `build.InspectImage` (store.go:1164-1205): reads the
three labels in source order; a missing or unparseable label is
`ErrNoChecktypeImage`; on success the recorded time is the parse of the
RFC822 label text. -/
def InspectImage (imageName : String) (ls : ImageLabels) :
    Except InspectError Image :=
  match ls.lastModified with
  | .missing => .error .noChecktypeImage
  | .malformed => .error .noChecktypeImage
  | .parsed m =>
    match ls.name with
    | none => .error .noChecktypeImage
    | some ctName =>
      match ls.manifest with
      | .missing => .error .noChecktypeImage
      | .malformed => .error .noChecktypeImage
      | .parsed manifest =>
        .ok ⟨imageName, ctName, manifest, parseRFC822 m⟩

/-- The manifest file at the root of a checktype directory, abstracted
by its `os.ReadFile`/`ParseManifest` outcome. -/
inductive ManifestFile where
  | absent
  | malformed
  | parsed (m : Manifest)
deriving DecidableEq

/-- Embedding of `build.Code`: the checktype source directory. `files`
lists the modification times (seconds) of the files in the tree
(version-control directories already skipped, as in `lastModified`);
the directory is assumed readable. -/
structure Code where
  path : String
  files : List Nat
  manifestFile : ManifestFile
deriving DecidableEq

/-- The error shapes of the build package that this model can reach. -/
inductive BuildError where
  | emptyDir
  | noManifestFile
  | invalidManifestFile
  | noChecktypeImage
  | checktypeConv
deriving DecidableEq

/-- The engine-side state: the image stored under the checktype's
deterministic local tag (its labels), and the number of engine build
calls issued so far. -/
structure World where
  image : Option ImageLabels
  builds : Nat
deriving DecidableEq

/-- The labels read for the checktype's tag: empty when no image. -/
def worldLabels (w : World) : ImageLabels :=
  match w.image with
  | none => absentLabels
  | some ls => ls

/-- Go `path.Base`: empty path gives ".", trailing slashes are
stripped, an all-slash path gives "/", otherwise the component after
the last slash. -/
def pathBase (p : String) : String :=
  if p = "" then "."
  else
    match (p.toList.reverse.dropWhile (fun ch => ch = '/')) with
    | [] => "/"
    | stripped => String.mk (stripped.takeWhile (fun ch => ch ≠ '/')).reverse

/-- Embedding of `Code.name` (store.go:1391-1394): base name of the directory. -/
def Code.name (c : Code) : String := pathBase c.path

/-- Embedding of `Code.imageName` (store.go:1385-1388):
`fmt.Sprintf("%s-%s", name, "local")`. -/
def Code.imageName (c : Code) : String := c.name ++ "-" ++ "local"

/-- Embedding of `build.lastModified` (store.go:1458-1487): newest
modification time over all files of the tree; error if the tree holds
no file. -/
def lastModified (files : List Nat) : Except BuildError Nat :=
  match files with
  | [] => .error .emptyDir
  | f :: rest => .ok (rest.foldl (fun acc t => if acc < t then t else acc) f)

/-- Embedding of `Code.isModified` (store.go:1364-1383): inspect the
image under the deterministic tag; `ErrNoChecktypeImage` means never
built (`true`); otherwise compare the directory's newest modification
time with the recorded one. NOTE the source computes
`modified := dirTime.Equal(image.LastModified)` — `true` when the
times are EQUAL. -/
def Code.isModified (c : Code) (w : World) : Except BuildError Bool :=
  match InspectImage c.imageName (worldLabels w) with
  | .error .noChecktypeImage => .ok true
  | .ok image =>
    match lastModified c.files with
    | .error e => .error e
    | .ok dirTime => .ok (dirTime == image.lastModified)

/-- Embedding of `Image.Checktype` (store.go:1255-1278): unmarshal the options and
asset types from the manifest (either can fail) and assemble the
catalog descriptor; the manifest's required vars become `[]any`
entries that are all strings. -/
def Image.checktype (i : Image) : Except BuildError Checktype :=
  match i.manifest.options with
  | none => .error .checktypeConv
  | some options =>
    match i.manifest.assetTypes with
    | none => .error .checktypeConv
    | some assetTypes =>
      .ok ⟨i.checktypeName, i.manifest.description, i.name,
        i.manifest.timeout, options, i.manifest.requiredVars.map RVar.str,
        assetTypes⟩

/-- Embedding of `build.NewImage` (store.go:1210-1252): read and parse
the manifest file, archive the tree (pure I/O, not modelled), compute
the directory's newest modification time, and issue one engine build
call whose labels record the checktype name, the raw manifest text and
the RFC822-serialized modification time. The returned `Image` leaves
`LastModified` at its zero value, as in the source. The engine build
call itself is assumed to succeed. -/
def NewImage (w : World) (imageName : String) (c : Code)
    (checktypeName : String) : Except BuildError (Image × World) :=
  match c.manifestFile with
  | .absent => .error .noManifestFile
  | .malformed => .error .invalidManifestFile
  | .parsed manifest =>
    match lastModified c.files with
    | .error e => .error e
    | .ok modif =>
      let t := formatRFC822 modif
      let labels : ImageLabels :=
        ⟨.parsed t, some checktypeName, .parsed manifest⟩
      .ok (⟨imageName, checktypeName, manifest, 0⟩,
        ⟨some labels, w.builds + 1⟩)

/-- The rebuild branch of `Code.Build` (store.go:1348-1361): compile
the checktype (`goBuildDir`, assumed to succeed — a compile failure
aborts before any engine call), build the image, and derive the
descriptor from the freshly built image. -/
def rebuildPath (c : Code) (w : World) : Except BuildError (Checktype × World) :=
  match NewImage w c.imageName c c.name with
  | .error e => .error e
  | .ok (image, w') =>
    match image.checktype with
    | .error e => .error e
    | .ok ct => .ok (ct, w')

/-- Embedding of `Code.Build` (store.go:1329-1362): decide via
`isModified`; on `false` re-inspect the cached image and return the
descriptor derived from its labels (no engine build call); on `true`
take the rebuild path. -/
def Code.build (c : Code) (w : World) : Except BuildError (Checktype × World) :=
  match c.isModified w with
  | .error e => .error e
  | .ok modified =>
    if !modified then
      match InspectImage c.imageName (worldLabels w) with
      | .error .noChecktypeImage => .error .noChecktypeImage
      | .ok image =>
        match image.checktype with
        | .error e => .error e
        | .ok ct => .ok (ct, w)
    else
      rebuildPath c w

/-- An image is a valid prior build iff all three labels are present
and parseable. -/
def checktypeImageValid (ls : ImageLabels) : Bool :=
  match ls with
  | ⟨.parsed _, some _, .parsed _⟩ => true
  | _ => false

/-! ### Fixtures: a checktype directory -/

/-- A well-formed manifest. -/
def manifestFix : Manifest := ⟨"d", 0, some [], some ["DomainName"], []⟩

/-- The directory with a single file whose mtime (60 s) is exactly
minute-aligned. -/
def codeFix : Code := ⟨"/tmp/ct1", [60], .parsed manifestFix⟩

/-- The same directory after a file was modified at 130 s (a different
minute, hence a different serialized fingerprint). -/
def codeFixTouched : Code := ⟨"/tmp/ct1", [60, 130], .parsed manifestFix⟩

/-- The labels a build of `codeFix` stores: RFC822 text of 60 s is
minute 1. -/
def labelsFix : ImageLabels := ⟨.parsed 1, some "ct1", .parsed manifestFix⟩

/-- Engine state after the first build of `codeFix`. -/
def worldFix : World := ⟨some labelsFix, 1⟩

/-- The descriptor derived from `manifestFix`. -/
def ctFix : Checktype := ⟨"ct1", "d", "ct1-" ++ "local", 0, [], [], ["DomainName"]⟩

/-! ### Claim theorems for the build cache -/

/-- C1 (divergence): on `codeFix` a first build from an empty engine
records fingerprint minute 1 and issues one build; the recorded
fingerprint then EQUALS the directory's current fingerprint, yet a
second `Code.Build` issues a SECOND engine build (`builds = 2`); and
after modifying a file (fingerprint changed, `codeFixTouched`) the
second call issues NO additional build (pure cache hit, `builds`
stays 1). The polarity of `isModified`
(`modified := dirTime.Equal(image.LastModified)`, store.go:1381) is
inverted with respect to the claim and to `Build`'s own doc comment. -/
theorem build_rebuild_polarity_bug :
    Code.build codeFix ⟨none, 0⟩ = .ok (ctFix, worldFix)
    ∧ Code.build codeFix worldFix = .ok (ctFix, ⟨some labelsFix, 2⟩)
    ∧ Code.build codeFixTouched worldFix = .ok (ctFix, worldFix) :=
  ⟨rfl, rfl, rfl⟩

/-- C2 (counterexample): a pair whose two sides serialize to the same
RFC822 text (the directory fingerprint 60 s formats to minute 1, the
minute recorded in the image label) is NOT treated as unchanged: the
rebuild decision returns `modified = true`, refuting the claim at this
input. -/
theorem isModified_serialized_equal_cex :
    formatRFC822 60 = 1
    ∧ (worldLabels worldFix).lastModified = .parsed 1
    ∧ lastModified codeFix.files = .ok 60
    ∧ Code.isModified codeFix worldFix = .ok true :=
  ⟨rfl, rfl, rfl, rfl⟩

/-- C2 (amended): for a previously built image with parseable labels
recording minute `m`, the rebuild decision compares the raw directory
time against the lossy parsed label time (`m * 60`) for exact
time-value equality, with inverted polarity: the pair is treated as
modified when the times are equal and as unchanged (cache hit) when
they are not; in particular a pair that serializes to the same text is
treated as unchanged precisely when the underlying times differ at
finer resolution. -/
theorem isModified_decision_amended (c : Code) (w : World)
    (ls : ImageLabels) (m : Nat) (nm : String) (mf : Manifest)
    (dirTime : Nat) (himg : w.image = some ls)
    (hlm : ls.lastModified = .parsed m) (hnm : ls.name = some nm)
    (hmf : ls.manifest = .parsed mf)
    (hdir : lastModified c.files = .ok dirTime) :
    (dirTime = parseRFC822 m → Code.isModified c w = .ok true)
    ∧ (dirTime ≠ parseRFC822 m → Code.isModified c w = .ok false)
    ∧ (formatRFC822 dirTime = m → dirTime ≠ parseRFC822 m →
        Code.isModified c w = .ok false) := by
  have hbase : Code.isModified c w = .ok (dirTime == parseRFC822 m) := by
    have hwl : worldLabels w = ls := by simp [worldLabels, himg]
    simp [Code.isModified, hwl, InspectImage, hlm, hnm, hmf, hdir]
  refine ⟨fun he => ?_, fun hne => ?_, fun _ hne => ?_⟩
  · rw [hbase, he]; simp
  · rw [hbase]; simp [hne]
  · rw [hbase]; simp [hne]

theorem isModified_decision_amended_witness :
    (130 : Nat) ≠ parseRFC822 1
    ∧ Code.isModified codeFixTouched worldFix = .ok false :=
  ⟨by decide,
    (isModified_decision_amended codeFixTouched worldFix labelsFix 1 "ct1"
      manifestFix 130 rfl rfl rfl rfl rfl).2.1 (by decide)⟩

/-- C3: when no image exists under the deterministic local tag, or any
of the three labels is missing, or a present label fails to parse
(`checktypeImageValid` is false), `Code.Build` treats the checktype as
never built: `isModified` answers `true` without error and `Build`
takes the rebuild path rather than returning an error. -/
theorem build_invalid_labels_rebuild (c : Code) (w : World)
    (h : checktypeImageValid (worldLabels w) = false) :
    Code.isModified c w = .ok true ∧ Code.build c w = rebuildPath c w := by
  unfold Code.build Code.isModified
  rcases hw : worldLabels w with ⟨lm, nm, mf⟩
  rw [hw] at h
  cases lm <;> rcases nm with _ | nm <;> cases mf <;>
    simp_all [InspectImage, checktypeImageValid]

theorem build_invalid_labels_rebuild_witness :
    checktypeImageValid (worldLabels ⟨none, 0⟩) = false
    ∧ (Code.isModified codeFix ⟨none, 0⟩ = .ok true
        ∧ Code.build codeFix ⟨none, 0⟩ = rebuildPath codeFix ⟨none, 0⟩) :=
  ⟨by decide, build_invalid_labels_rebuild codeFix ⟨none, 0⟩ (by decide)⟩

/-! ## Checktype catalog (`internal/checktypes/checktypes.go`) -/

/-- Inner loop of `checkcatalog.Checktype` acceptance
(checktypes.go:41-48): walk the accepted asset-type list and compare
each entry with the target's asset type. -/
def acceptsLoop : List String → String → Bool
  | [], _ => false
  | accepted :: rest, t => if accepted = t then true else acceptsLoop rest t

/-- Embedding of `checktypes.Accepts`: whether the checktype accepts
an asset type. -/
def Accepts (ct : Checktype) (t : String) : Bool := acceptsLoop ct.assets t

theorem acceptsLoop_iff_mem (l : List String) (t : String) :
    acceptsLoop l t = true ↔ t ∈ l := by
  induction l with
  | nil => simp [acceptsLoop]
  | cons a rest ih =>
    simp only [acceptsLoop, List.mem_cons]
    by_cases h : a = t
    · subst h; simp
    · have h' : ¬t = a := fun he => h he.symm
      simp [h, h', ih]

/-- Embedding of `checktypes.Catalog`: a name-keyed map built with
`setKV`, so keys stay unique. -/
abbrev Catalog := List (String × Checktype)

/-- Insertion `checktypes[checktype.Name] = checktype`. -/
def insertCT (cat : Catalog) (ct : Checktype) : Catalog := setKV cat ct.name ct

/-- What processing one catalog URL yields. `NewCatalog` performs I/O
per URL (`url.Parse`, `os.Stat`, `Code.Build`, `urlutil.Get`,
`json.Unmarshal`); each URL's environment outcome abstracts those
results. -/
inductive SourceOutcome where
  | badURL
  | statError
  | dirBuild (r : Except BuildError Checktype)
  | fetchError
  | malformedPayload
  | payload (cts : List Checktype)

/-- The error kinds of `NewCatalog`. -/
inductive CatalogError where
  | missingCatalog
  | invalidURL
  | statError
  | buildError (e : BuildError)
  | fetchError
  | malformedCatalog
deriving DecidableEq

/-- The URL loop of `NewCatalog` (checktypes.go:62-101): a directory
URL contributes the one built checktype, a remote URL contributes every
decoded checktype, each inserted under its name (overwriting); any
failure aborts the whole merge. -/
def newCatalogLoop (env : String → SourceOutcome) :
    List String → Catalog → Except CatalogError Catalog
  | [], cat => .ok cat
  | u :: rest, cat =>
    match env u with
    | .badURL => .error .invalidURL
    | .statError => .error .statError
    | .dirBuild (.error e) => .error (.buildError e)
    | .dirBuild (.ok ct) => newCatalogLoop env rest (insertCT cat ct)
    | .fetchError => .error .fetchError
    | .malformedPayload => .error .malformedCatalog
    | .payload cts => newCatalogLoop env rest (cts.foldl insertCT cat)

/-- Embedding of `checktypes.NewCatalog` (checktypes.go:57-103):
`ErrMissingCatalog` on an empty URL list, otherwise merge the sources
in order. -/
def NewCatalog (env : String → SourceOutcome) (urls : List String) :
    Except CatalogError Catalog :=
  if urls.isEmpty then .error .missingCatalog
  else newCatalogLoop env urls []

/-- The in-order stream of descriptors a URL produces (on success). -/
def urlDescriptors (env : String → SourceOutcome) (u : String) :
    List Checktype :=
  match env u with
  | .dirBuild (.ok ct) => [ct]
  | .payload cts => cts
  | _ => []

/-- The in-order stream of descriptors of a whole URL list. -/
def descriptorStream (env : String → SourceOutcome) (urls : List String) :
    List Checktype :=
  (urls.map (urlDescriptors env)).flatten

/-- The last descriptor named `n` in a stream, if any. -/
def lastNamed : List Checktype → String → Option Checktype
  | [], _ => none
  | ct :: rest, n =>
    match lastNamed rest n with
    | some r => some r
    | none => if ct.name = n then some ct else none

theorem lastNamed_append (a b : List Checktype) (n : String) :
    lastNamed (a ++ b) n =
      match lastNamed b n with
      | some r => some r
      | none => lastNamed a n := by
  induction a with
  | nil =>
    simp only [List.nil_append]
    cases h : lastNamed b n <;> simp [h, lastNamed]
  | cons ct rest ih =>
    simp only [List.cons_append, lastNamed, List.append_eq]
    rw [ih]
    cases h : lastNamed b n <;> cases h2 : lastNamed rest n <;> simp [h, h2]

theorem lookupKV_foldl_insertCT (cts : List Checktype) (cat : Catalog)
    (n : String) :
    lookupKV (cts.foldl insertCT cat) n =
      match lastNamed cts n with
      | some r => some r
      | none => lookupKV cat n := by
  induction cts generalizing cat with
  | nil => simp [lastNamed]
  | cons ct rest ih =>
    simp only [List.foldl_cons, lastNamed, ih]
    cases hr : lastNamed rest n with
    | some r => simp
    | none =>
      simp only [insertCT, lookupKV_setKV]
      by_cases h : ct.name = n <;> simp [h]

theorem newCatalogLoop_lookup (env : String → SourceOutcome)
    (urls : List String) (cat0 cat : Catalog) (n : String)
    (h : newCatalogLoop env urls cat0 = .ok cat) :
    lookupKV cat n =
      match lastNamed (descriptorStream env urls) n with
      | some r => some r
      | none => lookupKV cat0 n := by
  induction urls generalizing cat0 with
  | nil =>
    simp only [newCatalogLoop] at h
    cases h
    simp [descriptorStream, lastNamed]
  | cons u rest ih =>
    simp only [newCatalogLoop] at h
    have hstream : descriptorStream env (u :: rest)
        = urlDescriptors env u ++ descriptorStream env rest := by
      simp [descriptorStream]
    rw [hstream, lastNamed_append]
    cases he : env u with
    | badURL => rw [he] at h; cases h
    | statError => rw [he] at h; cases h
    | fetchError => rw [he] at h; cases h
    | malformedPayload => rw [he] at h; cases h
    | dirBuild r =>
      cases r with
      | error e => rw [he] at h; cases h
      | ok ct =>
        rw [he] at h
        have := ih (insertCT cat0 ct) h
        rw [this]
        have hurl : urlDescriptors env u = [ct] := by simp [urlDescriptors, he]
        rw [hurl]
        cases lastNamed (descriptorStream env rest) n with
        | some r => simp
        | none =>
          simp only [lastNamed, insertCT, lookupKV_setKV]
          by_cases hn : ct.name = n <;> simp [hn]
    | payload cts =>
      rw [he] at h
      have := ih (cts.foldl insertCT cat0) h
      rw [this]
      have hurl : urlDescriptors env u = cts := by simp [urlDescriptors, he]
      rw [hurl]
      cases lastNamed (descriptorStream env rest) n with
      | some r => simp
      | none => simp [lookupKV_foldl_insertCT]

/-- C6: `NewCatalog` fails with the missing-catalog error on an empty
source list; otherwise it processes sources in order and inserts every
produced descriptor under its name, unconditionally overwriting, so a
successful catalog maps each name to the LAST descriptor of that name
in the combined source stream. -/
theorem newCatalog_empty_and_lastWins (env : String → SourceOutcome)
    (urls : List String) :
    (urls = [] → NewCatalog env urls = .error .missingCatalog)
    ∧ (∀ cat, NewCatalog env urls = .ok cat → ∀ n,
        lookupKV cat n = lastNamed (descriptorStream env urls) n) := by
  constructor
  · intro h; subst h; rfl
  · intro cat hok n
    unfold NewCatalog at hok
    by_cases hempty : urls.isEmpty
    · rw [if_pos hempty] at hok; cases hok
    · rw [if_neg hempty] at hok
      have := newCatalogLoop_lookup env urls [] cat n hok
      rw [this]
      cases lastNamed (descriptorStream env urls) n <;> simp [lookupKV]

/-- A two-descriptor payload under one name: the later one wins. -/
def ctOldFix : Checktype := ⟨"ct1", "old", "img-old", 0, [], [], ["Hostname"]⟩

def envFix : String → SourceOutcome :=
  fun u => if u = "u1" then .payload [ctOldFix, ctFix] else .badURL

theorem newCatalog_empty_and_lastWins_witness :
    NewCatalog envFix [] = .error .missingCatalog
    ∧ (NewCatalog envFix ["u1"] = .ok [("ct1", ctFix)]
        ∧ lookupKV [("ct1", ctFix)] "ct1"
            = lastNamed (descriptorStream envFix ["u1"]) "ct1") :=
  ⟨(newCatalog_empty_and_lastWins envFix []).1 rfl,
    rfl,
    (newCatalog_empty_and_lastWins envFix ["u1"]).2 [("ct1", ctFix)]
      rfl "ct1"⟩

/-! ## Check and job generation

The bodies of `generateChecks` and `generateJobs` are not part of the
source extract (only `TestGenerateChecks` and `TestGenerateJobs` are);
the definitions below are modelled from the spec (§4.3, §4.4) and are
consistent with those tests. -/

/-- Modelled from the spec: the fixed asset-type enumeration
(`vulcan-types`, not part of the source extract) from which a target's
asset-type tag must be drawn. -/
def validAssetTypes : List String :=
  ["IP", "IPRange", "DomainName", "Hostname", "WebAddress", "AWSAccount",
    "DockerImage", "GitRepository", "GCPProject"]

/-- Embedding of `config.Target`: identifier, asset-type tag, and
per-target option overrides. -/
structure Target where
  identifier : String
  assetType : String
  options : List (String × OptVal)
deriving DecidableEq

/-- Embedding of the `check` record: checktype descriptor, target,
effective options, and the process-unique correlation identifier. -/
structure Check where
  checktype : Checktype
  target : Target
  options : List (String × OptVal)
  id : Nat
deriving DecidableEq

/-- Modelled from the spec: the effective option set — the checktype's
default options shallow-copied, then every key of the target's override
map set into the copy (inserted or replacing). -/
def mergeOptions (defaults overrides : List (String × OptVal)) :
    List (String × OptVal) :=
  overrides.foldl (fun acc kv => setKV acc kv.1 kv.2) defaults

/-- The error kinds of check/job generation. -/
inductive GenError where
  | invalidAssetType (t : String)
  | badRequiredVars
deriving DecidableEq

/-- The logical deduplication key of a check:
(checktype name, target identifier, target asset type). -/
def checkKeyOf (c : Check) : String × String × String :=
  (c.checktype.name, c.target.identifier, c.target.assetType)

/-- Modelled from the spec: the inner loop of check generation for one
(validated) target — walk the catalog, keep the pairs the checktype
accepts, skip pairs whose deduplication key was already produced, merge
the options and assign a fresh sequential identifier. -/
def addChecksForTarget (t : Target) :
    Catalog → List (String × String × String) → Nat → List Check →
      List (String × String × String) × Nat × List Check
  | [], seen, nid, acc => (seen, nid, acc)
  | (_, ct) :: restCat, seen, nid, acc =>
    if Accepts ct t.assetType = true
        ∧ (ct.name, t.identifier, t.assetType) ∉ seen then
      addChecksForTarget t restCat
        ((ct.name, t.identifier, t.assetType) :: seen) (nid + 1)
        (acc ++ [⟨ct, t, mergeOptions ct.options t.options, nid⟩])
    else
      addChecksForTarget t restCat seen nid acc

/-- Modelled from the spec: the target loop of check generation — a
missing or unrecognized asset-type tag fails the whole operation;
otherwise the target's compatible pairs are accumulated. -/
def generateChecksLoop (cat : Catalog) :
    List Target → List (String × String × String) → Nat → List Check →
      Except GenError (List Check)
  | [], _, _, acc => .ok acc
  | t :: rest, seen, nid, acc =>
    if t.assetType = "" ∨ t.assetType ∉ validAssetTypes then
      .error (.invalidAssetType t.assetType)
    else
      let r := addChecksForTarget t cat seen nid acc
      generateChecksLoop cat rest r.1 r.2.1 r.2.2

/-- Modelled from the spec: `generateChecks(catalog, targets)` — the
compatible, deduplicated (checktype, target) pairs with merged
options. -/
def generateChecks (cat : Catalog) (targets : List Target) :
    Except GenError (List Check) :=
  generateChecksLoop cat targets [] 0 []

/-- Modelled from the spec: serialization of an effective option set to
a JSON object; the empty set serializes to the two-character
empty-object text. -/
def serializeOptions (opts : List (String × OptVal)) : String :=
  match opts with
  | [] => "\x7b\x7d"
  | _ =>
    "\x7b"
      ++ String.intercalate ","
        (opts.map (fun kv => "\"" ++ kv.1 ++ "\":\"" ++ kv.2 ++ "\""))
      ++ "\x7d"

/-- Embedding of `jobrunner.Job`. -/
structure Job where
  image : String
  target : String
  assetType : String
  options : String
  requiredVars : List String
  checkID : Nat
deriving DecidableEq

/-- Modelled from the spec: validation of the declared required-variable
list — every `[]any` entry must be a string; the first entry of any
other type fails the validation. -/
def requiredVarStrings : List RVar → Option (List String)
  | [] => some []
  | .str s :: rest => (requiredVarStrings rest).map (fun l => s :: l)
  | .nonString :: _ => none

/-- Modelled from the spec: projection of checks into jobs — the first
check whose checktype declares a non-string required variable aborts
the whole generation with a type-validation error. -/
def jobsFromChecks : List Check → Except GenError (List Job)
  | [] => .ok []
  | c :: rest =>
    match requiredVarStrings c.checktype.requiredVars with
    | none => .error .badRequiredVars
    | some rvs =>
      match jobsFromChecks rest with
      | .error e => .error e
      | .ok jobs =>
        .ok (⟨c.checktype.image, c.target.identifier, c.target.assetType,
          serializeOptions c.options, rvs, c.id⟩ :: jobs)

/-- Modelled from the spec: `generateJobs = generateChecks` then
projection. -/
def generateJobs (cat : Catalog) (targets : List Target) :
    Except GenError (List Job) :=
  match generateChecks cat targets with
  | .error e => .error e
  | .ok checks => jobsFromChecks checks

/-! ### Option merge (C5) -/

theorem lookupKV_mergeOptions (D O : List (String × OptVal))
    (hO : (O.map Prod.fst).Nodup) (k : String) :
    lookupKV (mergeOptions D O) k =
      match lookupKV O k with
      | some v => some v
      | none => lookupKV D k := by
  induction O generalizing D with
  | nil => simp [mergeOptions, lookupKV]
  | cons kv rest ih =>
    obtain ⟨k0, v0⟩ := kv
    simp only [List.map_cons, List.nodup_cons] at hO
    simp only [mergeOptions, List.foldl_cons] at *
    rw [ih (setKV D k0 v0) hO.2]
    by_cases hk : k0 = k
    · subst hk
      have hnone : lookupKV rest k0 = none :=
        lookupKV_eq_none_of_not_mem rest k0 hO.1
      simp [lookupKV, hnone, lookupKV_setKV]
    · simp only [lookupKV, hk, if_false]
      cases hr : lookupKV rest k with
      | some v => simp
      | none => simp [lookupKV_setKV, hk]

/-- C5: the effective option set of a generated Check is the
checktype's defaults with every override key applied — for every key,
the merged map binds the override value when the target overrides the
key, and the default value otherwise; keys only in the defaults survive
unchanged and keys only in the override are added. (The merge operates
on a shallow copy: in this embedding `mergeOptions` is pure, so the
default map value is never altered.) -/
theorem mergeOptions_effective (D O : List (String × OptVal))
    (hO : (O.map Prod.fst).Nodup) (k : String) :
    (∀ v, lookupKV O k = some v → lookupKV (mergeOptions D O) k = some v)
    ∧ (lookupKV O k = none → lookupKV (mergeOptions D O) k = lookupKV D k) := by
  constructor
  · intro v hv
    rw [lookupKV_mergeOptions D O hO k, hv]
  · intro hnone
    rw [lookupKV_mergeOptions D O hO k, hnone]

theorem mergeOptions_effective_witness :
    ((([("option2", "tv2")] : List (String × OptVal)).map Prod.fst).Nodup
      ∧ lookupKV [("option2", "tv2")] "option2" = some "tv2"
      ∧ lookupKV [("option1", "cv1"), ("option2", "cv2")] "option1" = some "cv1")
    ∧ lookupKV
        (mergeOptions [("option1", "cv1"), ("option2", "cv2")] [("option2", "tv2")])
        "option2" = some "tv2"
    ∧ lookupKV
        (mergeOptions [("option1", "cv1"), ("option2", "cv2")] [("option2", "tv2")])
        "option1" = lookupKV [("option1", "cv1"), ("option2", "cv2")] "option1" :=
  ⟨⟨by decide, by decide, by decide⟩,
    (mergeOptions_effective [("option1", "cv1"), ("option2", "cv2")]
      [("option2", "tv2")] (by decide) "option2").1 "tv2" (by decide),
    (mergeOptions_effective [("option1", "cv1"), ("option2", "cv2")]
      [("option2", "tv2")] (by decide) "option1").2 (by decide)⟩

/-! ### Compatibility filter (C4) -/

theorem addChecks_seen_iff (t : Target) (cat : Catalog)
    (seen : List (String × String × String)) (nid : Nat) (acc : List Check)
    (key : String × String × String) :
    key ∈ (addChecksForTarget t cat seen nid acc).1
      ↔ key ∈ seen
        ∨ ∃ p ∈ cat, Accepts p.2 t.assetType = true
            ∧ key = (p.2.name, t.identifier, t.assetType) := by
  induction cat generalizing seen nid acc with
  | nil => simp [addChecksForTarget]
  | cons hd rest ih =>
    obtain ⟨k0, ct⟩ := hd
    by_cases h : Accepts ct t.assetType = true
        ∧ (ct.name, t.identifier, t.assetType) ∉ seen
    · rw [show addChecksForTarget t ((k0, ct) :: rest) seen nid acc
          = addChecksForTarget t rest
              ((ct.name, t.identifier, t.assetType) :: seen) (nid + 1)
              (acc ++ [⟨ct, t, mergeOptions ct.options t.options, nid⟩])
        from by rw [addChecksForTarget, if_pos h]]
      rw [ih]
      simp only [List.mem_cons, exists_eq_or_imp]
      constructor
      · rintro ((hk | hk) | hk)
        · exact Or.inr (Or.inl ⟨h.1, hk⟩)
        · exact Or.inl hk
        · exact Or.inr (Or.inr hk)
      · rintro (hk | (⟨_, hk⟩ | hk))
        · exact Or.inl (Or.inr hk)
        · exact Or.inl (Or.inl hk)
        · exact Or.inr hk
    · rw [show addChecksForTarget t ((k0, ct) :: rest) seen nid acc
          = addChecksForTarget t rest seen nid acc
        from by rw [addChecksForTarget, if_neg h]]
      rw [ih]
      simp only [List.mem_cons, exists_eq_or_imp]
      push_neg at h
      constructor
      · rintro (hk | hk)
        · exact Or.inl hk
        · exact Or.inr (Or.inr hk)
      · rintro (hk | (⟨hacc, hk⟩ | hk))
        · exact Or.inl hk
        · exact Or.inl (hk ▸ h hacc)
        · exact Or.inr hk

theorem addChecks_acc_forward (t : Target) (cat : Catalog)
    (seen : List (String × String × String)) (nid : Nat) (acc : List Check)
    (c : Check) (hc : c ∈ (addChecksForTarget t cat seen nid acc).2.2) :
    c ∈ acc
    ∨ (c.target = t ∧ Accepts c.checktype t.assetType = true
        ∧ ∃ k, (k, c.checktype) ∈ cat) := by
  induction cat generalizing seen nid acc with
  | nil => exact Or.inl hc
  | cons hd rest ih =>
    obtain ⟨k0, ct⟩ := hd
    by_cases h : Accepts ct t.assetType = true
        ∧ (ct.name, t.identifier, t.assetType) ∉ seen
    · rw [show addChecksForTarget t ((k0, ct) :: rest) seen nid acc
          = addChecksForTarget t rest
              ((ct.name, t.identifier, t.assetType) :: seen) (nid + 1)
              (acc ++ [⟨ct, t, mergeOptions ct.options t.options, nid⟩])
        from by rw [addChecksForTarget, if_pos h]] at hc
      rcases ih _ _ _ hc with hmem | ⟨htg, hacc, k, hk⟩
      · rcases List.mem_append.mp hmem with hmem | hmem
        · exact Or.inl hmem
        · have hceq : c = ⟨ct, t, mergeOptions ct.options t.options, nid⟩ :=
            List.mem_singleton.mp hmem
          subst hceq
          exact Or.inr ⟨rfl, h.1, k0, List.mem_cons_self _ _⟩
      · exact Or.inr ⟨htg, hacc, k, List.mem_cons_of_mem _ hk⟩
    · rw [show addChecksForTarget t ((k0, ct) :: rest) seen nid acc
          = addChecksForTarget t rest seen nid acc
        from by rw [addChecksForTarget, if_neg h]] at hc
      rcases ih _ _ _ hc with hmem | ⟨htg, hacc, k, hk⟩
      · exact Or.inl hmem
      · exact Or.inr ⟨htg, hacc, k, List.mem_cons_of_mem _ hk⟩

theorem addChecks_inv (t : Target) (cat : Catalog)
    (seen : List (String × String × String)) (nid : Nat) (acc : List Check)
    (hinv : ∀ key ∈ seen, ∃ c ∈ acc, checkKeyOf c = key) :
    ∀ key ∈ (addChecksForTarget t cat seen nid acc).1,
      ∃ c ∈ (addChecksForTarget t cat seen nid acc).2.2, checkKeyOf c = key := by
  induction cat generalizing seen nid acc with
  | nil => exact hinv
  | cons hd rest ih =>
    obtain ⟨k0, ct⟩ := hd
    by_cases h : Accepts ct t.assetType = true
        ∧ (ct.name, t.identifier, t.assetType) ∉ seen
    · rw [show addChecksForTarget t ((k0, ct) :: rest) seen nid acc
          = addChecksForTarget t rest
              ((ct.name, t.identifier, t.assetType) :: seen) (nid + 1)
              (acc ++ [⟨ct, t, mergeOptions ct.options t.options, nid⟩])
        from by rw [addChecksForTarget, if_pos h]]
      apply ih
      intro key hkey
      rcases List.mem_cons.mp hkey with hkey | hkey
      · subst hkey
        exact ⟨⟨ct, t, mergeOptions ct.options t.options, nid⟩,
          List.mem_append_right _ (List.mem_singleton_self _), rfl⟩
      · obtain ⟨c, hcmem, hck⟩ := hinv key hkey
        exact ⟨c, List.mem_append_left _ hcmem, hck⟩
    · rw [show addChecksForTarget t ((k0, ct) :: rest) seen nid acc
          = addChecksForTarget t rest seen nid acc
        from by rw [addChecksForTarget, if_neg h]]
      exact ih _ _ _ hinv

theorem genLoop_ok (cat : Catalog) (targets : List Target)
    (seen : List (String × String × String)) (nid : Nat) (acc : List Check)
    (hvalid : ∀ t ∈ targets, t.assetType ≠ "" ∧ t.assetType ∈ validAssetTypes) :
    ∃ cs, generateChecksLoop cat targets seen nid acc = .ok cs := by
  induction targets generalizing seen nid acc with
  | nil => exact ⟨acc, rfl⟩
  | cons t rest ih =>
    have hv := hvalid t (List.mem_cons_self _ _)
    have hcond : ¬(t.assetType = "" ∨ t.assetType ∉ validAssetTypes) := by
      push_neg
      exact hv
    rw [show generateChecksLoop cat (t :: rest) seen nid acc
        = generateChecksLoop cat rest
            (addChecksForTarget t cat seen nid acc).1
            (addChecksForTarget t cat seen nid acc).2.1
            (addChecksForTarget t cat seen nid acc).2.2
      from by rw [generateChecksLoop, if_neg hcond]]
    exact ih _ _ _ (fun t' ht' => hvalid t' (List.mem_cons_of_mem _ ht'))

theorem genLoop_forward (cat : Catalog) (targets : List Target)
    (seen : List (String × String × String)) (nid : Nat) (acc : List Check)
    (cs : List Check) (h : generateChecksLoop cat targets seen nid acc = .ok cs)
    (c : Check) (hc : c ∈ cs) :
    c ∈ acc
    ∨ ∃ t ∈ targets, c.target = t ∧ Accepts c.checktype t.assetType = true
        ∧ ∃ k, (k, c.checktype) ∈ cat := by
  induction targets generalizing seen nid acc with
  | nil =>
    simp only [generateChecksLoop, Except.ok.injEq] at h
    exact Or.inl (h ▸ hc)
  | cons t rest ih =>
    by_cases hcond : t.assetType = "" ∨ t.assetType ∉ validAssetTypes
    · rw [generateChecksLoop, if_pos hcond] at h
      cases h
    · rw [show generateChecksLoop cat (t :: rest) seen nid acc
          = generateChecksLoop cat rest
              (addChecksForTarget t cat seen nid acc).1
              (addChecksForTarget t cat seen nid acc).2.1
              (addChecksForTarget t cat seen nid acc).2.2
        from by rw [generateChecksLoop, if_neg hcond]] at h
      rcases ih _ _ _ h with hmem | ⟨t', ht', htg, hacc, k, hk⟩
      · rcases addChecks_acc_forward t cat seen nid acc c hmem
          with hmem' | ⟨htg, hacc, k, hk⟩
        · exact Or.inl hmem'
        · exact Or.inr ⟨t, List.mem_cons_self _ _, htg, hacc, k, hk⟩
      · exact Or.inr ⟨t', List.mem_cons_of_mem _ ht', htg, hacc, k, hk⟩

theorem genLoop_complete (cat : Catalog) (targets : List Target)
    (seen : List (String × String × String)) (nid : Nat) (acc : List Check)
    (cs : List Check) (h : generateChecksLoop cat targets seen nid acc = .ok cs)
    (hinv : ∀ key ∈ seen, ∃ c ∈ acc, checkKeyOf c = key)
    (key : String × String × String)
    (hkey : key ∈ seen
      ∨ ∃ t ∈ targets, ∃ p ∈ cat, Accepts p.2 t.assetType = true
          ∧ key = (p.2.name, t.identifier, t.assetType)) :
    ∃ c ∈ cs, checkKeyOf c = key := by
  induction targets generalizing seen nid acc with
  | nil =>
    simp only [generateChecksLoop, Except.ok.injEq] at h
    rcases hkey with hkey | ⟨t, ht, _⟩
    · exact h ▸ hinv key hkey
    · exact absurd ht (List.not_mem_nil _)
  | cons t rest ih =>
    by_cases hcond : t.assetType = "" ∨ t.assetType ∉ validAssetTypes
    · rw [generateChecksLoop, if_pos hcond] at h
      cases h
    · rw [show generateChecksLoop cat (t :: rest) seen nid acc
          = generateChecksLoop cat rest
              (addChecksForTarget t cat seen nid acc).1
              (addChecksForTarget t cat seen nid acc).2.1
              (addChecksForTarget t cat seen nid acc).2.2
        from by rw [generateChecksLoop, if_neg hcond]] at h
      apply ih _ _ _ h (addChecks_inv t cat seen nid acc hinv)
      rcases hkey with hkey | ⟨t', ht', p, hp, hacc, hkeq⟩
      · exact Or.inl ((addChecks_seen_iff t cat seen nid acc key).mpr
          (Or.inl hkey))
      · rcases List.mem_cons.mp ht' with ht' | ht'
        · refine Or.inl ((addChecks_seen_iff t cat seen nid acc key).mpr
            (Or.inr ⟨p, hp, ?_, ?_⟩))
          · rw [← ht']; exact hacc
          · rw [← ht']; exact hkeq
        · exact Or.inr ⟨t', ht', p, hp, hacc, hkeq⟩

theorem lookup_pair_unique (cat : Catalog)
    (hnodup : (cat.map Prod.fst).Nodup) (n : String) (a b : Checktype)
    (ha : (n, a) ∈ cat) (hb : (n, b) ∈ cat) : a = b := by
  induction cat with
  | nil => exact absurd ha (List.not_mem_nil _)
  | cons hd rest ih =>
    obtain ⟨k0, x⟩ := hd
    simp only [List.map_cons, List.nodup_cons] at hnodup
    rcases List.mem_cons.mp ha with ha' | ha' <;>
      rcases List.mem_cons.mp hb with hb' | hb'
    · rw [Prod.mk.injEq] at ha' hb'
      rw [ha'.2, hb'.2]
    · rw [Prod.mk.injEq] at ha'
      exact absurd (ha'.1 ▸ List.mem_map_of_mem Prod.fst hb') hnodup.1
    · rw [Prod.mk.injEq] at hb'
      exact absurd (hb'.1 ▸ List.mem_map_of_mem Prod.fst ha') hnodup.1
    · exact ih hnodup.2 ha' hb'

/-- C4: under a well-formed catalog (name-keyed, unique keys) and
targets whose asset types are all present and drawn from the
enumeration, check generation succeeds, and a check for a given
checktype and (identifier, asset-type) pair exists in the result iff
the catalog holds that checktype, the targets hold that pair, and the
checktype's accepted asset-type set contains the pair's asset type;
with zero compatible pairs the result is the empty list (still a
success). -/
theorem generateChecks_compat_iff (cat : Catalog) (targets : List Target)
    (hnodup : (cat.map Prod.fst).Nodup)
    (hwk : ∀ p ∈ cat, p.1 = p.2.name)
    (hvalid : ∀ t ∈ targets, t.assetType ≠ "" ∧ t.assetType ∈ validAssetTypes) :
    ∃ cs, generateChecks cat targets = .ok cs
      ∧ (∀ (ct : Checktype) (ident atype : String),
          (∃ c ∈ cs, c.checktype = ct ∧ c.target.identifier = ident
              ∧ c.target.assetType = atype)
          ↔ ((ct.name, ct) ∈ cat
              ∧ (∃ t ∈ targets, t.identifier = ident ∧ t.assetType = atype)
              ∧ Accepts ct atype = true))
      ∧ ((∀ p ∈ cat, ∀ t ∈ targets, Accepts p.2 t.assetType = false) →
          cs = []) := by
  obtain ⟨cs, hcs⟩ := genLoop_ok cat targets [] 0 [] hvalid
  refine ⟨cs, hcs, ?_, ?_⟩
  · intro ct ident atype
    constructor
    · rintro ⟨c, hcmem, hct, hid, hat⟩
      rcases genLoop_forward cat targets [] 0 [] cs hcs c hcmem with hmem | h
      · exact absurd hmem (List.not_mem_nil _)
      · obtain ⟨t, ht, htg, hacc, k, hk⟩ := h
        have hkname : k = c.checktype.name := hwk (k, c.checktype) hk
        refine ⟨?_, ⟨t, ht, ?_, ?_⟩, ?_⟩
        · rw [← hct, ← hkname]; exact hk
        · rw [← hid, htg]
        · rw [← hat, htg]
        · rw [← hct, ← hat, htg]; exact hacc
    · rintro ⟨hcat, ⟨t, ht, hid, hat⟩, hacc⟩
      have hkey : (ct.name, ident, atype) ∈ ([] : List (String × String × String))
          ∨ ∃ t' ∈ targets, ∃ p ∈ cat, Accepts p.2 t'.assetType = true
              ∧ (ct.name, ident, atype) = (p.2.name, t'.identifier, t'.assetType) := by
        refine Or.inr ⟨t, ht, (ct.name, ct), hcat, ?_, ?_⟩
        · rw [hat]; exact hacc
        · rw [hid, hat]
      obtain ⟨c, hcmem, hck⟩ := genLoop_complete cat targets [] 0 [] cs hcs
        (fun key hkey => absurd hkey (List.not_mem_nil _)) _ hkey
      rcases genLoop_forward cat targets [] 0 [] cs hcs c hcmem with hmem | h
      · exact absurd hmem (List.not_mem_nil _)
      · obtain ⟨t', _, _, _, k, hk⟩ := h
        have hkname : k = c.checktype.name := hwk (k, c.checktype) hk
        have hnames : c.checktype.name = ct.name := congrArg Prod.fst hck
        have hcteq : c.checktype = ct := by
          apply lookup_pair_unique cat hnodup ct.name _ _ _ hcat
          rw [← hnames, ← hkname]
          exact hk
        have hkey2 : c.target.identifier = ident ∧ c.target.assetType = atype := by
          have h2 := congrArg Prod.snd hck
          exact ⟨congrArg Prod.fst h2, congrArg Prod.snd h2⟩
        exact ⟨c, hcmem, hcteq, hkey2.1, hkey2.2⟩
  · intro hnone
    rcases List.eq_nil_or_concat cs with hnil | ⟨pre, c, hconcat⟩
    · exact hnil
    · exfalso
      have hcmem : c ∈ cs := by
        rw [hconcat, List.concat_eq_append]
        exact List.mem_append_right _ (List.mem_singleton_self _)
      rcases genLoop_forward cat targets [] 0 [] cs hcs c hcmem with hmem | h
      · exact absurd hmem (List.not_mem_nil _)
      · obtain ⟨t, ht, _, hacc, k, hk⟩ := h
        have hfalse : Accepts c.checktype t.assetType = false :=
          hnone (k, c.checktype) hk t ht
        rw [hacc] at hfalse
        cases hfalse

/-- A checktype/target pair for the C4 and C7 witnesses. -/
def ctW4 : Checktype :=
  ⟨"checktype1", "checktype1 description", "namespace/repository:tag", 0,
    [], [], ["DomainName"]⟩

def tgW4 : Target := ⟨"example.com", "DomainName", []⟩

theorem generateChecks_compat_iff_witness :
    (((([("checktype1", ctW4)] : Catalog).map Prod.fst).Nodup
        ∧ (∀ p ∈ ([("checktype1", ctW4)] : Catalog), p.1 = p.2.name)
        ∧ (∀ t ∈ [tgW4], t.assetType ≠ "" ∧ t.assetType ∈ validAssetTypes)))
    ∧ (∃ cs, generateChecks [("checktype1", ctW4)] [tgW4] = .ok cs
        ∧ (∀ (ct : Checktype) (ident atype : String),
            (∃ c ∈ cs, c.checktype = ct ∧ c.target.identifier = ident
                ∧ c.target.assetType = atype)
            ↔ ((ct.name, ct) ∈ ([("checktype1", ctW4)] : Catalog)
                ∧ (∃ t ∈ [tgW4], t.identifier = ident ∧ t.assetType = atype)
                ∧ Accepts ct atype = true))
        ∧ ((∀ p ∈ ([("checktype1", ctW4)] : Catalog), ∀ t ∈ [tgW4],
              Accepts p.2 t.assetType = false) → cs = [])) :=
  ⟨⟨by decide, by decide, by decide⟩,
    generateChecks_compat_iff [("checktype1", ctW4)] [tgW4]
      (by decide) (by decide) (by decide)⟩

/-! ### Required-variable validation (C7) -/

theorem exists_check_of_compat (cat : Catalog) (targets : List Target)
    (hnodup : (cat.map Prod.fst).Nodup)
    (hwk : ∀ p ∈ cat, p.1 = p.2.name)
    (cs : List Check) (hcs : generateChecksLoop cat targets [] 0 [] = .ok cs)
    (ct : Checktype) (hct : (ct.name, ct) ∈ cat)
    (t : Target) (ht : t ∈ targets)
    (hacc : Accepts ct t.assetType = true) :
    ∃ c ∈ cs, c.checktype = ct := by
  have hkey : (ct.name, t.identifier, t.assetType)
      ∈ ([] : List (String × String × String))
      ∨ ∃ t' ∈ targets, ∃ p ∈ cat, Accepts p.2 t'.assetType = true
          ∧ (ct.name, t.identifier, t.assetType)
              = (p.2.name, t'.identifier, t'.assetType) :=
    Or.inr ⟨t, ht, (ct.name, ct), hct, hacc, rfl⟩
  obtain ⟨c, hcmem, hck⟩ := genLoop_complete cat targets [] 0 [] cs hcs
    (fun key hkey => absurd hkey (List.not_mem_nil _)) _ hkey
  rcases genLoop_forward cat targets [] 0 [] cs hcs c hcmem with hmem | h
  · exact absurd hmem (List.not_mem_nil _)
  · obtain ⟨t', _, _, _, k, hk⟩ := h
    have hkname : k = c.checktype.name := hwk (k, c.checktype) hk
    have hnames : c.checktype.name = ct.name := congrArg Prod.fst hck
    refine ⟨c, hcmem, ?_⟩
    apply lookup_pair_unique cat hnodup ct.name _ _ _ hct
    rw [← hnames, ← hkname]
    exact hk

theorem requiredVarStrings_eq_none (l : List RVar)
    (h : RVar.nonString ∈ l) : requiredVarStrings l = none := by
  induction l with
  | nil => exact absurd h (List.not_mem_nil _)
  | cons rv rest ih =>
    cases rv with
    | str s =>
      have hmem : RVar.nonString ∈ rest := by
        rcases List.mem_cons.mp h with h' | h'
        · cases h'
        · exact h'
      simp [requiredVarStrings, ih hmem]
    | nonString => rfl

theorem jobsFromChecks_error_of_bad (checks : List Check) (c : Check)
    (hc : c ∈ checks)
    (hnone : requiredVarStrings c.checktype.requiredVars = none) :
    jobsFromChecks checks = .error .badRequiredVars := by
  induction checks with
  | nil => exact absurd hc (List.not_mem_nil _)
  | cons c0 rest ih =>
    cases hr : requiredVarStrings c0.checktype.requiredVars with
    | none => rw [jobsFromChecks, hr]
    | some rvs =>
      have hcrest : c ∈ rest := by
        rcases List.mem_cons.mp hc with h' | h'
        · rw [h'] at hnone
          rw [hnone] at hr
          cases hr
        · exact h'
      rw [jobsFromChecks, hr, ih hcrest]

/-- C7: for every well-formed catalog containing a checktype whose
declared required-variable list has a non-string entry and every target
list (with valid asset types) containing a target that checktype
accepts, job generation fails with the type-validation error — the
whole call returns an error, not a partial job list. -/
theorem generateJobs_nonString_requiredVars_fails (cat : Catalog)
    (targets : List Target)
    (hnodup : (cat.map Prod.fst).Nodup)
    (hwk : ∀ p ∈ cat, p.1 = p.2.name)
    (hvalid : ∀ t ∈ targets, t.assetType ≠ "" ∧ t.assetType ∈ validAssetTypes)
    (ct : Checktype) (hct : (ct.name, ct) ∈ cat)
    (hbad : RVar.nonString ∈ ct.requiredVars)
    (t : Target) (ht : t ∈ targets)
    (hacc : Accepts ct t.assetType = true) :
    generateJobs cat targets = .error .badRequiredVars := by
  obtain ⟨cs, hcs⟩ := genLoop_ok cat targets [] 0 [] hvalid
  obtain ⟨c, hcmem, hcteq⟩ :=
    exists_check_of_compat cat targets hnodup hwk cs hcs ct hct t ht hacc
  have hchecks : generateChecks cat targets = .ok cs := hcs
  rw [generateJobs, hchecks]
  exact jobsFromChecks_error_of_bad cs c hcmem
    (requiredVarStrings_eq_none _ (hcteq ▸ hbad))

/-- A checktype declaring a non-string required variable. -/
def ctW7 : Checktype :=
  ⟨"checktype1", "checktype1 description", "namespace/repository:tag", 0,
    [], [RVar.nonString, RVar.nonString], ["DomainName"]⟩

theorem generateJobs_nonString_requiredVars_fails_witness :
    (((([("checktype1", ctW7)] : Catalog).map Prod.fst).Nodup
        ∧ (∀ p ∈ ([("checktype1", ctW7)] : Catalog), p.1 = p.2.name)
        ∧ (∀ t ∈ [tgW4], t.assetType ≠ "" ∧ t.assetType ∈ validAssetTypes)
        ∧ ("checktype1", ctW7) ∈ ([("checktype1", ctW7)] : Catalog)
        ∧ RVar.nonString ∈ ctW7.requiredVars
        ∧ tgW4 ∈ [tgW4]
        ∧ Accepts ctW7 tgW4.assetType = true))
    ∧ generateJobs [("checktype1", ctW7)] [tgW4] = .error .badRequiredVars :=
  ⟨⟨by decide, by decide, by decide, by decide, by decide, by decide, by decide⟩,
    generateJobs_nonString_requiredVars_fails [("checktype1", ctW7)] [tgW4]
      (by decide) (by decide) (by decide) ctW7 (by decide) (by decide)
      tgW4 (by decide) (by decide)⟩

end Lava
